import Mathlib

/-!
Verification of the ResumeGuru backend (src/server.js, src/server.cjs,
src/unnamed/part_000).  Strings are modelled as `List Char`; JavaScript
string primitives (`toLowerCase`, `includes`, `trim`, `replace`, the two
regexes, `Set`-deduplication, `slice`) are translated to executable list
functions.  JavaScript numbers in the scoring path are modelled as `ℚ`:
every intermediate value of `calculateATSMatchScore` is an integer or a
half-integer (base and bonuses are integers, the action-verb term is a
multiple of 1.5, the keyword term `(hits/len)*20` with `len ≤ 25` is either
an exact dyadic rational in IEEE double or far enough from a rounding tie
that the double result rounds like the rational), so `Math.round`
(= floor of x + 1/2 at every value reached here) and the comparisons agree
exactly with the rational computation.  Case folding models the ASCII
fragment of `toLowerCase`, which is the fragment the scoring vocabulary
exercises.
-/

/-- ASCII case folding, the model of `resume.toLowerCase()` /
`jd.toLowerCase()` in `calculateATSMatchScore`. -/
def jsToLower (s : List Char) : List Char := s.map Char.toLower

/-- Membership in the JavaScript regex class `\w` = `[A-Za-z0-9_]`. -/
def isWordChar (c : Char) : Bool := c.isAlphanum || decide (c = '_')

/-- Lowercase ASCII letter, the regex class `[a-z]`. -/
def isLowerAlpha (c : Char) : Bool := decide ('a' ≤ c) && decide (c ≤ 'z')

/-- Number of maximal runs of characters satisfying `p`, carrying whether the
previous character was inside a run.  `countRuns p s` is the number of
matches of the regex `\b\w+\b` (global) when `p = isWordChar`: each match of
that regex is exactly one maximal run of word characters. -/
def countRunsAux (p : Char → Bool) (prevIn : Bool) : List Char → Nat
  | [] => 0
  | c :: rest => (if p c && !prevIn then 1 else 0) + countRunsAux p (p c) rest

/-- Word count of the resume: `(resume.match(/\b\w+\b/g) || []).length`. -/
def wordCount (s : List Char) : Nat := countRunsAux isWordChar false s

/-- Maximal runs of characters satisfying `p`, in order, as lists.
`cur` holds the (reversed) run currently being read. -/
def runsAux (p : Char → Bool) (cur : List Char) : List Char → List (List Char)
  | [] => if cur = [] then [] else [cur.reverse]
  | c :: rest =>
    if p c then runsAux p (c :: cur) rest
    else if cur = [] then runsAux p [] rest
    else cur.reverse :: runsAux p [] rest

/-- The maximal runs of characters satisfying `p` in `s`. -/
def charRuns (p : Char → Bool) (s : List Char) : List (List Char) :=
  runsAux p [] s

/-- Bool test for `needle` being an initial segment of `hay`. -/
def startsWith : List Char → List Char → Bool
  | _, [] => true
  | [], _ :: _ => false
  | c :: hay, d :: needle => decide (c = d) && startsWith hay needle

/-- JavaScript `hay.includes(needle)`: contiguous substring test. -/
def includes (hay needle : List Char) : Bool :=
  match hay with
  | [] => startsWith [] needle
  | c :: t => startsWith (c :: t) needle || includes t needle

/-- Propositional contiguous-substring relation. -/
def SubstringOf (needle hay : List Char) : Prop :=
  ∃ pre post, hay = pre ++ needle ++ post

/-- First-occurrence deduplication, the order `[...new Set(list)]` yields;
`seen` accumulates the values already emitted. -/
def dedupFirstAux (seen : List (List Char)) : List (List Char) → List (List Char)
  | [] => []
  | x :: xs =>
    if x ∈ seen then dedupFirstAux seen xs
    else x :: dedupFirstAux (x :: seen) xs

/-- `[...new Set(list)]`: keep the first occurrence of each element. -/
def dedupFirst (l : List (List Char)) : List (List Char) := dedupFirstAux [] l

/-- JavaScript `Math.round` at the values reached by the scoring function:
round half up. -/
def jsRound (q : ℚ) : ℤ := ⌊q + 1 / 2⌋

/-- The fixed 10-verb vocabulary of `calculateATSMatchScore`. -/
def actionVerbs : List (List Char) :=
  [("managed".data), ("led".data), ("developed".data), ("created".data),
   ("implemented".data), ("achieved".data), ("increased".data),
   ("reduced".data), ("negotiated".data), ("launched".data)]

/-- Word-count band bonus: lines 30-36 of src/server.js. -/
def lengthBandTerm (wc : Nat) : ℚ :=
  if wc < 250 then 5 else if wc ≤ 700 then 20 else 10

/-- Section bonus: lines 39-41 of src/server.js. -/
def sectionTerm (resumeLower : List Char) : ℚ :=
  (if includes resumeLower ("experience".data) then 10 else 0) +
  (if includes resumeLower ("education".data) then 5 else 0) +
  (if includes resumeLower ("skill".data) then 10 else 0)

/-- Action-verb bonus: lines 44-46 of src/server.js,
`Math.min(actionVerbCount, 10) * 1.5`. -/
def actionVerbTerm (resumeLower : List Char) : ℚ :=
  ((min ((actionVerbs.filter (fun v => includes resumeLower v)).length) 10 : ℕ) : ℚ)
    * 1.5

/-- Keyword extraction from the job description, line 51 of src/server.js:
`[...new Set(jdLower.match(/\b[a-z]{4,}\b/g) || [])].slice(0, 25)`.
A global match of `\b[a-z]{4,}\b` must start and end at a word boundary;
inside the lower-cased text the boundaries are exactly the two ends of a
maximal `\w`-run, so the matches are precisely the whole maximal word-runs
that consist solely of `[a-z]` and have length at least 4 (a run such as
`java8` contributes nothing: no boundary separates `java` from `8`). -/
def extractKeywords (jd : List Char) : List (List Char) :=
  (dedupFirst ((charRuns isWordChar (jsToLower jd)).filter
      (fun r => decide (4 ≤ r.length) && r.all isLowerAlpha))).take 25

/-- Job-description term: lines 49-58 of src/server.js.  `jd` is falsy in
JavaScript exactly when it is the empty string. -/
def jdKeywordTerm (resumeLower jd : List Char) : ℤ :=
  if jd = [] then 10
  else
    let keywords := extractKeywords jd
    if keywords = [] then 0
    else
      jsRound
        ((((keywords.filter (fun k => includes resumeLower k)).length : ℚ)
            / (keywords.length : ℚ)) * 20)

/-- The scoring engine, `calculateATSMatchScore` of src/server.js lines
24-61 (identical in src/server.cjs lines 24-57): base 20, length band,
section bonuses, action-verb bonus, job-description term, then
`Math.min(100, Math.round(score))`. -/
def calculateATSMatchScore (resume jd : List Char) : ℤ :=
  let resumeLower := jsToLower resume
  let score : ℚ :=
    20 + lengthBandTerm (wordCount resume) + sectionTerm resumeLower
      + actionVerbTerm resumeLower + (jdKeywordTerm resumeLower jd : ℚ)
  min 100 (jsRound score)

/-!
Reference algorithm modelled from the spec's words (§4.1), for comparison
with the source: the spec describes keyword extraction as "all maximal runs
of lowercase letters of length ≥ 4 via pattern `[a-z]{4,}`" — note, without
the word boundaries the source's regex `\b[a-z]{4,}\b` imposes.
-/

/-- Modelled from the spec: "extract all maximal runs of lowercase letters
of length ≥ 4 via pattern `[a-z]{4,}`, deduplicate preserving first-seen
order, take at most the first 25 distinct tokens". -/
def specKeywords (jd : List Char) : List (List Char) :=
  (dedupFirst ((charRuns isLowerAlpha (jsToLower jd)).filter
      (fun r => decide (4 ≤ r.length)))).take 25

/-- Modelled from the spec: length band, "If count < 250 → +5.
If 250 ≤ count ≤ 700 → +20. Else (> 700) → +10." -/
def specLengthBand (count : Nat) : ℚ :=
  if count < 250 then 5
  else if 250 ≤ count ∧ count ≤ 700 then 20
  else 10

/-- Modelled from the spec: section presence, each independent and
additive. -/
def specSectionScore (resumeLower : List Char) : ℚ :=
  (if includes resumeLower ("experience".data) then 10 else 0) +
  (if includes resumeLower ("education".data) then 5 else 0) +
  (if includes resumeLower ("skill".data) then 10 else 0)

/-- Modelled from the spec: "Count distinct vocabulary members present as
substrings (case-insensitive) in the resume; cap the count at 10; multiply
by 1.5 and add." -/
def specVerbScore (resumeLower : List Char) : ℚ :=
  ((min ((actionVerbs.filter (fun v => includes resumeLower v)).length) 10 : ℕ) : ℚ)
    * 1.5

/-- Modelled from the spec: job-description term built on `specKeywords`;
`round((hits / keywordCount) * 20)` when the keyword set is non-empty, 0
when it is empty, flat +10 when no job description was supplied. -/
def specJdTerm (resumeLower jd : List Char) : ℤ :=
  if jd = [] then 10
  else
    let keywords := specKeywords jd
    if keywords = [] then 0
    else
      let hits := (keywords.filter (fun k => includes resumeLower k)).length
      jsRound (((hits : ℚ) / (keywords.length : ℚ)) * 20)

/-- Modelled from the spec: the §4.1 reference scoring algorithm as worded,
with `min(100, round(accumulated value))` applied once at the end. -/
def specScore (resume jd : List Char) : ℤ :=
  let resumeLower := jsToLower resume
  min 100 (jsRound
    (20 + specLengthBand (wordCount resume) + specSectionScore resumeLower
      + specVerbScore resumeLower + (specJdTerm resumeLower jd : ℚ)))

/-- The spec's job-description term with the keyword extraction corrected to
what the source's regex `\b[a-z]{4,}\b` denotes: whole maximal word-runs
that are entirely lowercase letters of length ≥ 4. -/
def specJdTermAmended (resumeLower jd : List Char) : ℤ :=
  if jd = [] then 10
  else
    let keywords :=
      (dedupFirst ((charRuns isWordChar (jsToLower jd)).filter
          (fun r => decide (4 ≤ r.length) && r.all isLowerAlpha))).take 25
    if keywords = [] then 0
    else
      let hits := (keywords.filter (fun k => includes resumeLower k)).length
      jsRound (((hits : ℚ) / (keywords.length : ℚ)) * 20)

/-- The spec's reference algorithm with only the keyword extraction
amended. -/
def specScoreAmended (resume jd : List Char) : ℤ :=
  let resumeLower := jsToLower resume
  min 100 (jsRound
    (20 + specLengthBand (wordCount resume) + specSectionScore resumeLower
      + specVerbScore resumeLower + (specJdTermAmended resumeLower jd : ℚ)))

/-!  The review client: response cleaning, trimming, fallback. -/

/-- The separator sequence removed by `cleanAIResponse`. -/
def sepMarker : List Char := ['-', '-', '-']

/-- The model of `text.replace(/---/g, "")`: scan left to right, removing
each leftmost occurrence of `---` and resuming after it. -/
def removeSeps : List Char → List Char
  | '-' :: '-' :: '-' :: rest => removeSeps rest
  | c :: rest => c :: removeSeps rest
  | [] => []

/-- The segments of the text lying between the successive matches of the
same left-to-right `---` scan that `removeSeps` performs: the input text is
these segments joined by `---` and the replacement result is their plain
concatenation, so every character outside the matched occurrences —
including lone hyphens and `--` pairs — is preserved unchanged and in
order. -/
def sepSplit : List Char → List (List Char)
  | '-' :: '-' :: '-' :: rest => [] :: sepSplit rest
  | c :: rest =>
    match sepSplit rest with
    | seg :: segs => (c :: seg) :: segs
    | [] => [[c]]
  | [] => [[]]

/-- Rejoin segments, placing the `---` separator between consecutive
ones. -/
def joinSeps : List (List Char) → List Char
  | [] => []
  | [seg] => seg
  | seg :: segs => seg ++ sepMarker ++ joinSeps segs

/-- The WhiteSpace and LineTerminator characters recognised by JavaScript
`String.prototype.trim`. -/
def isJsWhitespace (c : Char) : Bool :=
  decide (c = ' ') || decide (c = '\t') || decide (c = '\n') || decide (c = '\r') ||
  decide (c.toNat = 11) || decide (c.toNat = 12) ||
  decide (c.toNat = 0xA0) || decide (c.toNat = 0xFEFF) ||
  decide (c.toNat = 0x1680) ||
  (decide (0x2000 ≤ c.toNat) && decide (c.toNat ≤ 0x200A)) ||
  decide (c.toNat = 0x2028) || decide (c.toNat = 0x2029) ||
  decide (c.toNat = 0x202F) || decide (c.toNat = 0x205F) ||
  decide (c.toNat = 0x3000)

/-- JavaScript `s.trim()`: drop whitespace from both ends. -/
def jsTrim (s : List Char) : List Char :=
  ((s.dropWhile isJsWhitespace).reverse.dropWhile isJsWhitespace).reverse

/-- `cleanAIResponse` of src/server.js lines 68-71:
`text.replace(/---/g, "").trim()`. -/
def cleanAIResponse (text : List Char) : List Char :=
  jsTrim (removeSeps text)

/-- The fixed fallback apology string returned by `callAI` on any
failure. -/
def fallbackMessage : List Char :=
  ("I\x27m sorry, but I encountered an error while reviewing the resume. Please try again in a moment.".data)

/-- Outcome of the single upstream LLM call attempted by `callAI`: the
credential may be missing, the transport may fail, the response status may
be non-success, or a response arrives whose `choices[0].message.content` is
absent or some text. -/
inductive UpstreamOutcome where
  | missingKey : UpstreamOutcome
  | transportError : UpstreamOutcome
  | badStatus : Nat → UpstreamOutcome
  | success : Option (List Char) → UpstreamOutcome
deriving DecidableEq

/-- The upstream call failed in one of the ways absorbed by `callAI`:
anything other than a success carrying trimmed content of length ≥ 50. -/
def upstreamFails : UpstreamOutcome → Prop
  | .success (some content) =>
      jsTrim content = [] ∨ (jsTrim content).length < 50
  | _ => True

/-- `callAI` of src/server.js lines 158-202: the try/catch absorbs every
failure (missing key, transport error, non-ok status, missing content) and
the trimmed content is rejected when empty or shorter than 50 characters;
all of those paths return the fixed apology string. -/
def callAI : UpstreamOutcome → List Char
  | .success (some content) =>
      let c := jsTrim content
      if c = [] ∨ c.length < 50 then fallbackMessage else c
  | _ => fallbackMessage

/-- Response produced by the `/api/review` handler. -/
structure ReviewResponse where
  status : Nat
  ok : Bool
  atsScore : Option ℤ
  aiReview : Option (List Char)
  error : Option (List Char)
deriving DecidableEq

/-- The 400 response for a missing or too-short resume. -/
def badRequestResponse : ReviewResponse :=
  { status := 400, ok := false, atsScore := none, aiReview := none,
    error := some ("Resume is missing or too short.".data) }

/-- The `/api/review` handler, src/server.js lines 206-222: validate the
resume (`!resume || resume.trim().length < 50` → 400), otherwise score,
call the LLM and clean its reply.  The upstream interaction is the
`UpstreamOutcome` parameter. -/
def reviewHandler (resume? jd? : Option (List Char)) (u : UpstreamOutcome) :
    ReviewResponse :=
  match resume? with
  | none => badRequestResponse
  | some resume =>
    if resume = [] ∨ (jsTrim resume).length < 50 then badRequestResponse
    else
      let jd := jd?.getD []
      { status := 200, ok := true,
        atsScore := some (calculateATSMatchScore resume jd),
        aiReview := some (cleanAIResponse (callAI u)),
        error := none }

/-!
Payment initiator, src/server.cjs lines 144-184 (`/api/create-order`):
the outbound request construction.  `Buffer.from(string)` is UTF-8;
`crypto.createHash("sha256")...digest("hex")` is FIPS 180-4 SHA-256 with a
lowercase hexadecimal digest, modelled concretely below; `JSON.stringify`
serialises the order payload with its keys in insertion order.  The model
takes the merchant id, salt key and order id as explicit string parameters
and the amount as an integer (JavaScript numbers are exact on the integer
amounts this endpoint handles).
-/

/-- UTF-8 encoding of one scalar value. -/
def utf8EncodeChar (c : Char) : List Nat :=
  let n := c.toNat
  if n < 0x80 then [n]
  else if n < 0x800 then
    [0xC0 ||| (n >>> 6), 0x80 ||| (n &&& 0x3F)]
  else if n < 0x10000 then
    [0xE0 ||| (n >>> 12), 0x80 ||| ((n >>> 6) &&& 0x3F), 0x80 ||| (n &&& 0x3F)]
  else
    [0xF0 ||| (n >>> 18), 0x80 ||| ((n >>> 12) &&& 0x3F),
     0x80 ||| ((n >>> 6) &&& 0x3F), 0x80 ||| (n &&& 0x3F)]

/-- UTF-8 encoding of a string, the bytes of `Buffer.from(s)`. -/
def utf8Encode (s : List Char) : List Nat :=
  (s.map utf8EncodeChar).join

/-- Character of the standard base64 alphabet. -/
def b64Char (n : Nat) : Char :=
  ("ABCDEFGHIJKLMNOPQRSTUVWXYZabcdefghijklmnopqrstuvwxyz0123456789+/".data).getD n 'A'

/-- Standard base64 with padding, `buffer.toString("base64")`. -/
def base64Encode : List Nat → List Char
  | b1 :: b2 :: b3 :: rest =>
      b64Char (b1 >>> 2) :: b64Char (((b1 &&& 3) <<< 4) ||| (b2 >>> 4)) ::
      b64Char (((b2 &&& 15) <<< 2) ||| (b3 >>> 6)) :: b64Char (b3 &&& 63) ::
      base64Encode rest
  | [b1, b2] =>
      [b64Char (b1 >>> 2), b64Char (((b1 &&& 3) <<< 4) ||| (b2 >>> 4)),
       b64Char ((b2 &&& 15) <<< 2), '=']
  | [b1] =>
      [b64Char (b1 >>> 2), b64Char ((b1 &&& 3) <<< 4), '=', '=']
  | [] => []

/-- 32-bit right rotation. -/
def rotr32 (n x : Nat) : Nat :=
  ((x >>> n) ||| (x <<< (32 - n))) % 2 ^ 32

/-- SHA-256 round constants (FIPS 180-4, written in decimal). -/
def sha256K : List Nat :=
  [1116352408, 1899447441, 3049323471, 3921009573,
   961987163, 1508970993, 2453635748, 2870763221,
   3624381080, 310598401, 607225278, 1426881987,
   1925078388, 2162078206, 2614888103, 3248222580,
   3835390401, 4022224774, 264347078, 604807628,
   770255983, 1249150122, 1555081692, 1996064986,
   2554220882, 2821834349, 2952996808, 3210313671,
   3336571891, 3584528711, 113926993, 338241895,
   666307205, 773529912, 1294757372, 1396182291,
   1695183700, 1986661051, 2177026350, 2456956037,
   2730485921, 2820302411, 3259730800, 3345764771,
   3516065817, 3600352804, 4094571909, 275423344,
   430227734, 506948616, 659060556, 883997877,
   958139571, 1322822218, 1537002063, 1747873779,
   1955562222, 2024104815, 2227730452, 2361852424,
   2428436474, 2756734187, 3204031479, 3329325298]

/-- SHA-256 working state. -/
structure Hash8 where
  a : Nat
  b : Nat
  c : Nat
  d : Nat
  e : Nat
  f : Nat
  g : Nat
  h : Nat

/-- SHA-256 initial hash value (FIPS 180-4, in decimal). -/
def sha256H0 : Hash8 :=
  ⟨1779033703, 3144134277, 1013904242, 2773480762,
   1359893119, 2600822924, 528734635, 1541459225⟩

/-- Big-endian 4-byte words from a byte list. -/
def bytesToWords : List Nat → List Nat
  | b1 :: b2 :: b3 :: b4 :: rest =>
      (b1 <<< 24 ||| b2 <<< 16 ||| b3 <<< 8 ||| b4) :: bytesToWords rest
  | _ => []

/-- Next word of the SHA-256 message schedule. -/
def sha256NextWord (w : List Nat) : Nat :=
  let wAt := fun i => w.getD i 0
  let s0 :=
    rotr32 7 (wAt (w.length - 15)) ^^^ rotr32 18 (wAt (w.length - 15)) ^^^
      (wAt (w.length - 15) >>> 3)
  let s1 :=
    rotr32 17 (wAt (w.length - 2)) ^^^ rotr32 19 (wAt (w.length - 2)) ^^^
      (wAt (w.length - 2) >>> 10)
  (wAt (w.length - 16) + s0 + wAt (w.length - 7) + s1) % 2 ^ 32

/-- Extend the message schedule by `k` further words. -/
def sha256Extend (w : List Nat) : Nat → List Nat
  | 0 => w
  | k + 1 => sha256Extend (w ++ [sha256NextWord w]) k

/-- One SHA-256 compression round. -/
def sha256Round (st : Hash8) (kw : Nat × Nat) : Hash8 :=
  let S1 := rotr32 6 st.e ^^^ rotr32 11 st.e ^^^ rotr32 25 st.e
  let ch := (st.e &&& st.f) ^^^ ((st.e ^^^ (2 ^ 32 - 1)) &&& st.g)
  let t1 := (st.h + S1 + ch + kw.1 + kw.2) % 2 ^ 32
  let S0 := rotr32 2 st.a ^^^ rotr32 13 st.a ^^^ rotr32 22 st.a
  let mj := (st.a &&& st.b) ^^^ (st.a &&& st.c) ^^^ (st.b &&& st.c)
  let t2 := (S0 + mj) % 2 ^ 32
  ⟨(t1 + t2) % 2 ^ 32, st.a, st.b, st.c, (st.d + t1) % 2 ^ 32, st.e, st.f, st.g⟩

/-- Compress one 64-byte block into the running hash. -/
def sha256Compress (st : Hash8) (block : List Nat) : Hash8 :=
  let ws := sha256Extend (bytesToWords block) 48
  let r := (sha256K.zip ws).foldl sha256Round st
  ⟨(st.a + r.a) % 2 ^ 32, (st.b + r.b) % 2 ^ 32, (st.c + r.c) % 2 ^ 32,
   (st.d + r.d) % 2 ^ 32, (st.e + r.e) % 2 ^ 32, (st.f + r.f) % 2 ^ 32,
   (st.g + r.g) % 2 ^ 32, (st.h + r.h) % 2 ^ 32⟩

/-- SHA-256 padding: a `0x80` byte, zeros to 56 mod 64, and the bit length
as 8 big-endian bytes. -/
def sha256Pad (msg : List Nat) : List Nat :=
  let len := msg.length
  let zeros := (119 - len % 64) % 64
  let bits := 8 * len
  msg ++ [0x80] ++ List.replicate zeros 0 ++
    [(bits >>> 56) % 256, (bits >>> 48) % 256, (bits >>> 40) % 256,
     (bits >>> 32) % 256, (bits >>> 24) % 256, (bits >>> 16) % 256,
     (bits >>> 8) % 256, bits % 256]

/-- Split a byte list into 64-byte blocks. -/
def chunks64 : List Nat → List (List Nat)
  | [] => []
  | b :: rest => ((b :: rest).take 64) :: chunks64 ((b :: rest).drop 64)
termination_by l => l.length
decreasing_by
  simp only [List.length_drop, List.length_cons]
  omega

/-- Full SHA-256 over a byte message. -/
def sha256Words (msg : List Nat) : Hash8 :=
  (chunks64 (sha256Pad msg)).foldl sha256Compress sha256H0

/-- Lowercase hexadecimal digit. -/
def hexChar (n : Nat) : Char :=
  ("0123456789abcdef".data).getD n '0'

/-- Eight lowercase hex digits of a 32-bit word. -/
def wordToHex (w : Nat) : List Char :=
  [hexChar (w >>> 28 % 16), hexChar (w >>> 24 % 16), hexChar (w >>> 20 % 16),
   hexChar (w >>> 16 % 16), hexChar (w >>> 12 % 16), hexChar (w >>> 8 % 16),
   hexChar (w >>> 4 % 16), hexChar (w % 16)]

/-- Hex digest of SHA-256 on a byte message:
`crypto.createHash("sha256").update(...).digest("hex")`. -/
def sha256hex (msg : List Nat) : List Char :=
  let d := sha256Words msg
  wordToHex d.a ++ wordToHex d.b ++ wordToHex d.c ++ wordToHex d.d ++
    wordToHex d.e ++ wordToHex d.f ++ wordToHex d.g ++ wordToHex d.h

/-- Decimal digits of a natural number, as `Number.prototype.toString`. -/
def natToChars (n : Nat) : List Char :=
  if h : n < 10 then [Char.ofNat (48 + n)]
  else natToChars (n / 10) ++ [Char.ofNat (48 + n % 10)]
decreasing_by
  exact Nat.div_lt_self (by omega) (by omega)

/-- Decimal rendering of an integer. -/
def intToChars (i : ℤ) : List Char :=
  if i < 0 then '-' :: natToChars i.natAbs else natToChars i.natAbs

/-- `JSON.stringify` escaping of one character. -/
def jsonEscapeChar (c : Char) : List Char :=
  if c = '"' then ['\\', '"']
  else if c = '\\' then ['\\', '\\']
  else if c = Char.ofNat 8 then ['\\', 'b']
  else if c = '\t' then ['\\', 't']
  else if c = '\n' then ['\\', 'n']
  else if c = Char.ofNat 12 then ['\\', 'f']
  else if c = '\r' then ['\\', 'r']
  else if c.toNat < 0x20 then
    ['\\', 'u', '0', '0', hexChar (c.toNat / 16), hexChar (c.toNat % 16)]
  else [c]

/-- `JSON.stringify` of a string value. -/
def jsonString (s : List Char) : List Char :=
  '"' :: (s.map jsonEscapeChar).join ++ ['"']

/-- The order payload built by `/api/create-order` before serialisation:
`{ merchantId, merchantTransactionId, amount: amount * 100, redirectUrl,
redirectMode, callbackUrl, paymentInstrument }`. -/
structure PhonePePayload where
  merchantId : List Char
  merchantTransactionId : List Char
  amount : ℤ

/-- The payload record: `amount * 100` is the minor-unit conversion at
src/server.cjs line 151. -/
def payloadOf (mid : List Char) (amount : ℤ) (orderId : List Char) :
    PhonePePayload :=
  { merchantId := mid, merchantTransactionId := orderId,
    amount := amount * 100 }

/-- `JSON.stringify(payload)` with the keys in insertion order and the
fixed URL / instrument fields of src/server.cjs lines 148-156. -/
def stringifyPayload (p : PhonePePayload) : List Char :=
  ("\x7b\"merchantId\":".data) ++ jsonString p.merchantId ++
  (",\"merchantTransactionId\":".data) ++ jsonString p.merchantTransactionId ++
  (",\"amount\":".data) ++ intToChars p.amount ++
  (",\"redirectUrl\":\"https://resumeguru.onrender.com/payment-status\",\"redirectMode\":\"POST\",\"callbackUrl\":\"https://resumeguru.onrender.com/webhook/phonepe\",\"paymentInstrument\":\x7b\"type\":\"PAY_PAGE\"\x7d\x7d".data)

/-- The outbound gateway request assembled by `/api/create-order`. -/
structure OrderOutRequest where
  request : List Char
  xVerify : List Char
  xMerchantId : List Char

/-- `/api/create-order`, src/server.cjs lines 144-177: serialise the
payload, base64-encode it, and derive `X-VERIFY` as
`sha256hex(base64Payload + "/pg/v1/pay" + SALT_KEY) + "###" + 1`. -/
def createOrderRequest (mid salt : List Char) (amount : ℤ)
    (orderId : List Char) : OrderOutRequest :=
  let base64Payload :=
    base64Encode (utf8Encode (stringifyPayload (payloadOf mid amount orderId)))
  { request := base64Payload,
    xVerify :=
      sha256hex (utf8Encode (base64Payload ++ ("/pg/v1/pay".data) ++ salt)) ++
        ("###1".data),
    xMerchantId := mid }

/-! Arithmetic helper lemmas for the JavaScript rounding model. -/

lemma jsRound_eq (q : ℚ) (n : ℤ) (h₁ : (n : ℚ) ≤ q + 1 / 2)
    (h₂ : q + 1 / 2 < (n : ℚ) + 1) : jsRound q = n := by
  unfold jsRound
  exact Int.floor_eq_iff.mpr ⟨h₁, by linarith⟩

lemma jsRound_intCast (n : ℤ) : jsRound ((n : ℚ)) = n := by
  apply jsRound_eq <;> norm_num

lemma le_jsRound (n : ℤ) (q : ℚ) (h : (n : ℚ) ≤ q) : n ≤ jsRound q := by
  unfold jsRound
  exact Int.le_floor.mpr (by linarith)

/-! Substring lemmas connecting the Bool test `includes` with the
propositional relation `SubstringOf`. -/

lemma startsWith_iff (hay needle : List Char) :
    startsWith hay needle = true ↔ ∃ rest, hay = needle ++ rest := by
  induction needle generalizing hay with
  | nil => simp [startsWith]
  | cons n ns ih =>
    cases hay with
    | nil => simp [startsWith]
    | cons c t =>
      simp only [startsWith, Bool.and_eq_true, decide_eq_true_eq, ih,
        List.cons_append]
      constructor
      · rintro ⟨rfl, rest, rfl⟩
        exact ⟨rest, rfl⟩
      · rintro ⟨rest, h⟩
        injection h with h1 h2
        exact ⟨h1, rest, h2⟩

lemma substringOf_cons_iff (n : List Char) (c : Char) (t : List Char) :
    SubstringOf n (c :: t) ↔ (∃ rest, c :: t = n ++ rest) ∨ SubstringOf n t := by
  constructor
  · rintro ⟨pre, post, h⟩
    cases pre with
    | nil => exact Or.inl ⟨post, by simpa using h⟩
    | cons p ps =>
      right
      injection h with h1 h2
      exact ⟨ps, post, h2⟩
  · rintro (⟨rest, h⟩ | ⟨pre, post, h⟩)
    · exact ⟨[], rest, by simpa using h⟩
    · exact ⟨c :: pre, post, by simp [h]⟩

lemma includes_iff (hay needle : List Char) :
    includes hay needle = true ↔ SubstringOf needle hay := by
  induction hay with
  | nil =>
    simp only [includes, startsWith_iff, SubstringOf]
    constructor
    · rintro ⟨rest, h⟩
      exact ⟨[], rest, by simpa using h⟩
    · rintro ⟨pre, post, h⟩
      have h2 := List.append_eq_nil.mp h.symm
      have h3 := List.append_eq_nil.mp h2.1
      exact ⟨[], by simp [h3.2]⟩
  | cons c t ih =>
    simp only [includes, Bool.or_eq_true, startsWith_iff, ih,
      substringOf_cons_iff]

lemma mem_of_substringOf {a : Char} {needle hay : List Char}
    (h : SubstringOf needle hay) (ha : a ∈ needle) : a ∈ hay := by
  obtain ⟨pre, post, rfl⟩ := h
  simp [ha]

lemma includes_eq_false {hay needle : List Char} {a : Char}
    (ha : a ∈ needle) (hs : a ∉ hay) : includes hay needle = false := by
  by_contra h
  rw [Bool.not_eq_false, includes_iff] at h
  exact hs (mem_of_substringOf h ha)

/-- C4: the action-verb contribution of `calculateATSMatchScore` depends
only on which vocabulary verbs occur as substrings of the lower-cased
resume — never on repetition — a resume containing all 10 verbs gets
contribution 15, and the distinct-verb count used is capped at 10. -/
theorem c4_action_verb_saturation :
    (∀ r1 r2 : List Char,
        (∀ v ∈ actionVerbs,
          includes (jsToLower r1) v = includes (jsToLower r2) v) →
        actionVerbTerm (jsToLower r1) = actionVerbTerm (jsToLower r2)) ∧
    (∀ r : List Char, (∀ v ∈ actionVerbs, includes (jsToLower r) v = true) →
        actionVerbTerm (jsToLower r) = 15) ∧
    (∀ rl : List Char,
        min ((actionVerbs.filter (fun v => includes rl v)).length) 10 ≤ 10) := by
  refine ⟨?_, ?_, ?_⟩
  · intro r1 r2 h
    unfold actionVerbTerm
    rw [List.filter_congr h]
  · intro r h
    unfold actionVerbTerm
    rw [List.filter_eq_self.mpr (by intro v hv; rw [h v hv])]
    norm_num [actionVerbs]
  · intro rl
    exact min_le_right _ _

/-- Concrete instance of C4: one copy of every verb scores the same
action-verb contribution, 15, as three copies of every verb. -/
def verbResumeOnce : List Char :=
  ("managed led developed created implemented achieved increased reduced negotiated launched".data)

/-- A resume repeating the whole vocabulary three times. -/
def verbResumeMany : List Char :=
  verbResumeOnce ++ (' ' :: verbResumeOnce) ++ (' ' :: verbResumeOnce)

theorem c4_witness :
    actionVerbTerm (jsToLower verbResumeOnce)
        = actionVerbTerm (jsToLower verbResumeMany) ∧
    actionVerbTerm (jsToLower verbResumeOnce) = 15 :=
  ⟨c4_action_verb_saturation.1 verbResumeOnce verbResumeMany (by decide),
   c4_action_verb_saturation.2.1 verbResumeOnce (by decide)⟩

/-- C10: for every pair of inputs the score is an integer between 25 and
100: the base 20 plus the minimal length-band bonus 5 bounds it below, the
final clamp bounds it above. -/
theorem c10_score_bounds (resume jd : List Char) :
    25 ≤ calculateATSMatchScore resume jd ∧
      calculateATSMatchScore resume jd ≤ 100 := by
  unfold calculateATSMatchScore
  constructor
  · refine le_min (by norm_num) ?_
    apply le_jsRound
    have h1 : (5 : ℚ) ≤ lengthBandTerm (wordCount resume) := by
      unfold lengthBandTerm
      split
      · norm_num
      · split <;> norm_num
    have h2 : (0 : ℚ) ≤ sectionTerm (jsToLower resume) := by
      unfold sectionTerm
      have a1 : (0 : ℚ) ≤
          (if includes (jsToLower resume) ("experience".data) then (10 : ℚ) else 0) := by
        split <;> norm_num
      have a2 : (0 : ℚ) ≤
          (if includes (jsToLower resume) ("education".data) then (5 : ℚ) else 0) := by
        split <;> norm_num
      have a3 : (0 : ℚ) ≤
          (if includes (jsToLower resume) ("skill".data) then (10 : ℚ) else 0) := by
        split <;> norm_num
      linarith
    have h3 : (0 : ℚ) ≤ actionVerbTerm (jsToLower resume) := by
      unfold actionVerbTerm
      positivity
    have h4 : (0 : ℤ) ≤ jdKeywordTerm (jsToLower resume) jd := by
      simp only [jdKeywordTerm]
      split
      · norm_num
      · split
        · norm_num
        · refine le_jsRound 0 _ ?_
          positivity
    have h4' : (0 : ℚ) ≤ ((jdKeywordTerm (jsToLower resume) jd : ℤ) : ℚ) :=
      Int.cast_nonneg.mpr h4
    push_cast
    push_cast at h4'
    linarith
  · exact min_le_left _ _

/-! Deduplication lemmas. -/

lemma mem_of_mem_dedupFirstAux {x : List Char} :
    ∀ (seen l : List (List Char)), x ∈ dedupFirstAux seen l → x ∈ l := by
  intro seen l
  induction l generalizing seen with
  | nil => simp [dedupFirstAux]
  | cons y ys ih =>
    simp only [dedupFirstAux]
    split
    · intro h
      exact List.mem_cons_of_mem _ (ih _ h)
    · intro h
      rcases List.mem_cons.mp h with h | h
      · exact h ▸ List.mem_cons_self _ _
      · exact List.mem_cons_of_mem _ (ih _ h)

lemma nodup_dedupFirstAux :
    ∀ (seen l : List (List Char)), (dedupFirstAux seen l).Nodup ∧
      ∀ x ∈ dedupFirstAux seen l, x ∉ seen := by
  intro seen l
  induction l generalizing seen with
  | nil => simp [dedupFirstAux]
  | cons y ys ih =>
    simp only [dedupFirstAux]
    split
    · exact ⟨(ih seen).1, fun x hx => (ih seen).2 x hx⟩
    · rename_i hy
      obtain ⟨hnd, hout⟩ := ih (y :: seen)
      refine ⟨List.nodup_cons.mpr ⟨fun hmem => (hout y hmem) (List.mem_cons_self _ _), hnd⟩, ?_⟩
      intro x hx
      rcases List.mem_cons.mp hx with rfl | hx
      · exact hy
      · exact fun hxs => (hout x hx) (List.mem_cons_of_mem _ hxs)

lemma extractKeywords_sound {jd k : List Char} (h : k ∈ extractKeywords jd) :
    4 ≤ k.length ∧ k.all isLowerAlpha = true := by
  unfold extractKeywords at h
  have h1 := List.take_subset _ _ h
  have h2 := mem_of_mem_dedupFirstAux [] _ h1
  have h3 := (List.mem_filter.mp h2).2
  rw [Bool.and_eq_true, decide_eq_true_eq] at h3
  exact h3

lemma extractKeywords_shape (jd : List Char) :
    (extractKeywords jd).Nodup ∧ (extractKeywords jd).length ≤ 25 := by
  constructor
  · exact (nodup_dedupFirstAux [] _).1.sublist (List.take_sublist _ _)
  · unfold extractKeywords
    exact List.length_take_le _ _

/-! Job-description term lemmas. -/

lemma jdKeywordTerm_no_jd (rl : List Char) : jdKeywordTerm rl [] = 10 := by
  simp [jdKeywordTerm]

lemma jdKeywordTerm_all_hit {rl jd : List Char} (hjd : jd ≠ [])
    (hne : extractKeywords jd ≠ [])
    (hall : ∀ k ∈ extractKeywords jd, includes rl k = true) :
    jdKeywordTerm rl jd = 20 := by
  simp only [jdKeywordTerm, if_neg hjd, if_neg hne]
  rw [List.filter_eq_self.mpr (fun k hk => by rw [hall k hk])]
  have hlen : ((extractKeywords jd).length : ℚ) ≠ 0 := by
    have := List.length_pos.mpr hne
    exact_mod_cast Nat.pos_iff_ne_zero.mp this
  rw [div_self hlen, one_mul]
  rw [show (20 : ℚ) = ((20 : ℤ) : ℚ) by norm_num, jsRound_intCast]

lemma jdKeywordTerm_none_hit {rl jd : List Char} (hjd : jd ≠ [])
    (hnone : ∀ k ∈ extractKeywords jd, includes rl k = false) :
    jdKeywordTerm rl jd = 0 := by
  simp only [jdKeywordTerm, if_neg hjd]
  split
  · rfl
  · rw [List.filter_eq_nil_iff.mpr (fun k hk => by simp [hnone k hk])]
    rw [show ((([] : List (List Char)).length : ℚ) / ((extractKeywords jd).length : ℚ) * 20) = ((0 : ℤ) : ℚ) by norm_num,
      jsRound_intCast]

/-- C3 (amended): keyword extraction lower-cases the job description and
yields the whole maximal word-character runs that consist solely of
lowercase letters and have length ≥ 4 (so `java` inside `java8` does NOT
qualify), deduplicated first-seen and truncated to 25; a non-empty keyword
set with 100% overlap contributes +20 and 0% overlap +0; an empty set +0;
no job description a flat +10. -/
theorem c3_keyword_extraction_amended :
    (∀ jd, extractKeywords jd =
      (dedupFirst ((charRuns isWordChar (jsToLower jd)).filter
          (fun r => decide (4 ≤ r.length) && r.all isLowerAlpha))).take 25) ∧
    (∀ jd k, k ∈ extractKeywords jd → 4 ≤ k.length ∧ k.all isLowerAlpha = true) ∧
    (∀ jd, (extractKeywords jd).Nodup ∧ (extractKeywords jd).length ≤ 25) ∧
    (∀ rl, jdKeywordTerm rl [] = 10) ∧
    (∀ rl jd, jd ≠ [] → extractKeywords jd ≠ [] →
        (∀ k ∈ extractKeywords jd, includes rl k = true) →
        jdKeywordTerm rl jd = 20) ∧
    (∀ rl jd, jd ≠ [] → (∀ k ∈ extractKeywords jd, includes rl k = false) →
        jdKeywordTerm rl jd = 0) :=
  ⟨fun _ => rfl, fun _ _ h => extractKeywords_sound h,
   fun jd => extractKeywords_shape jd, jdKeywordTerm_no_jd,
   fun _ _ h1 h2 h3 => jdKeywordTerm_all_hit h1 h2 h3,
   fun _ _ h1 h2 => jdKeywordTerm_none_hit h1 h2⟩

theorem c3_witness :
    jdKeywordTerm (jsToLower ("java word here okay".data)) ("java word here".data) = 20 :=
  c3_keyword_extraction_amended.2.2.2.2.1 _ _ (by decide) (by decide) (by decide)

/-! Concrete score evaluation helper. -/

lemma score_eval (resume jd : List Char) (b s v : ℚ) (j n : ℤ)
    (hb : lengthBandTerm (wordCount resume) = b)
    (hs : sectionTerm (jsToLower resume) = s)
    (hv : actionVerbTerm (jsToLower resume) = v)
    (hj : jdKeywordTerm (jsToLower resume) jd = j)
    (hn : min 100 (jsRound (20 + b + s + v + (j : ℚ))) = n) :
    calculateATSMatchScore resume jd = n := by
  show min 100 (jsRound (20 + lengthBandTerm (wordCount resume)
      + sectionTerm (jsToLower resume) + actionVerbTerm (jsToLower resume)
      + (jdKeywordTerm (jsToLower resume) jd : ℚ))) = n
  rw [hb, hs, hv, hj, hn]

lemma spec_score_eval (resume jd : List Char) (b s v : ℚ) (j n : ℤ)
    (hb : specLengthBand (wordCount resume) = b)
    (hs : specSectionScore (jsToLower resume) = s)
    (hv : specVerbScore (jsToLower resume) = v)
    (hj : specJdTerm (jsToLower resume) jd = j)
    (hn : min 100 (jsRound (20 + b + s + v + (j : ℚ))) = n) :
    specScore resume jd = n := by
  show min 100 (jsRound (20 + specLengthBand (wordCount resume)
      + specSectionScore (jsToLower resume) + specVerbScore (jsToLower resume)
      + (specJdTerm (jsToLower resume) jd : ℚ))) = n
  rw [hb, hs, hv, hj, hn]

/-- C3 counterexample: the claim's extraction ("maximal runs of lowercase
letters of length ≥ 4, so `java` in `java8` qualifies") is falsified by the
source: on the job description `java8` the source extracts no keyword at
all, while the claimed extraction yields `java`; consequently the score of
resume `java` against `java8` is 25, not the 45 the claimed extraction
would give. -/
theorem c3_counterexample :
    extractKeywords ("java8".data) = [] ∧
    specKeywords ("java8".data) = [("java".data)] ∧
    jdKeywordTerm (jsToLower ("java".data)) ("java8".data) = 0 ∧
    specJdTerm (jsToLower ("java".data)) ("java8".data) = 20 := by
  refine ⟨by decide, by decide, ?_, ?_⟩
  · have h1 : extractKeywords ("java8".data) = [] := by decide
    simp [jdKeywordTerm, h1]
  · have hk : specKeywords ("java8".data) = [("java".data)] := by decide
    simp only [specJdTerm, hk]
    rw [if_neg (by decide), if_neg (by decide)]
    have hf : ([("java".data)].filter
        (fun k => includes (jsToLower ("java".data)) k)) = [("java".data)] := by
      decide
    rw [hf]
    show jsRound (((1 : ℕ) : ℚ) / ((1 : ℕ) : ℚ) * 20) = 20
    rw [show (((1 : ℕ) : ℚ) / ((1 : ℕ) : ℚ) * 20) = ((20 : ℤ) : ℚ) by norm_num,
      jsRound_intCast]

/-- C1 (amended): the source scoring function coincides with the spec's
reference algorithm once the keyword extraction is amended to the
word-boundary-constrained one the source regex denotes. -/
theorem c1_matches_amended_spec (resume jd : List Char) :
    calculateATSMatchScore resume jd = specScoreAmended resume jd := by
  have hband : ∀ wc, lengthBandTerm wc = specLengthBand wc := by
    intro wc
    unfold lengthBandTerm specLengthBand
    by_cases h1 : wc < 250
    · rw [if_pos h1, if_pos h1]
    · by_cases h2 : wc ≤ 700
      · rw [if_neg h1, if_pos h2, if_neg h1, if_pos ⟨by omega, h2⟩]
      · rw [if_neg h1, if_neg h2, if_neg h1, if_neg (by tauto)]
  show min 100 (jsRound (20 + lengthBandTerm (wordCount resume)
      + sectionTerm (jsToLower resume) + actionVerbTerm (jsToLower resume)
      + (jdKeywordTerm (jsToLower resume) jd : ℚ)))
    = min 100 (jsRound (20 + specLengthBand (wordCount resume)
      + specSectionScore (jsToLower resume) + specVerbScore (jsToLower resume)
      + (specJdTermAmended (jsToLower resume) jd : ℚ)))
  rw [hband]
  rfl

/-- C1 counterexample: the source does not equal the spec's reference
algorithm as worded: on resume `java` and job description `java8` the
reference algorithm yields 45 while the source yields 25. -/
theorem c1_counterexample :
    specScore ("java".data) ("java8".data) = 45 ∧
    calculateATSMatchScore ("java".data) ("java8".data) = 25 ∧
    calculateATSMatchScore ("java".data) ("java8".data)
      ≠ specScore ("java".data) ("java8".data) := by
  have hwc : wordCount ("java".data) = 1 := by decide
  have hspec : specScore ("java".data) ("java8".data) = 45 := by
    apply spec_score_eval _ _ 5 0 0 20
    · rw [hwc]
      norm_num [specLengthBand]
    · have e1 : includes (jsToLower ("java".data)) ("experience".data) = false := by decide
      have e2 : includes (jsToLower ("java".data)) ("education".data) = false := by decide
      have e3 : includes (jsToLower ("java".data)) ("skill".data) = false := by decide
      simp [specSectionScore, e1, e2, e3]
    · have e4 : (actionVerbs.filter
          (fun v => includes (jsToLower ("java".data)) v)) = [] := by decide
      simp [specVerbScore, e4]
    · exact c3_counterexample.2.2.2
    · rw [show (20 + (5 : ℚ) + 0 + 0 + ((20 : ℤ) : ℚ)) = ((45 : ℤ) : ℚ) by norm_num,
        jsRound_intCast]
      norm_num
  have hcode : calculateATSMatchScore ("java".data) ("java8".data) = 25 := by
    apply score_eval _ _ 5 0 0 0
    · rw [hwc]
      norm_num [lengthBandTerm]
    · have e1 : includes (jsToLower ("java".data)) ("experience".data) = false := by decide
      have e2 : includes (jsToLower ("java".data)) ("education".data) = false := by decide
      have e3 : includes (jsToLower ("java".data)) ("skill".data) = false := by decide
      simp [sectionTerm, e1, e2, e3]
    · have e4 : (actionVerbs.filter
          (fun v => includes (jsToLower ("java".data)) v)) = [] := by decide
      simp [actionVerbTerm, e4]
    · exact c3_counterexample.2.2.1
    · rw [show (20 + (5 : ℚ) + 0 + 0 + ((0 : ℤ) : ℚ)) = ((25 : ℤ) : ℚ) by norm_num,
        jsRound_intCast]
      norm_num
  exact ⟨hspec, hcode, by rw [hspec, hcode]; decide⟩

/-! Synthetic resumes for the word-count band boundaries (C2). -/

/-- A resume of exactly `n` word tokens (`zzzz` separated by blanks), with
no recognised section names and no action verbs. -/
def sampleResume : Nat → List Char
  | 0 => []
  | n + 1 => ' ' :: 'z' :: 'z' :: 'z' :: 'z' :: sampleResume n

lemma sampleResume_chars : ∀ n, ∀ c ∈ sampleResume n, c = ' ' ∨ c = 'z' := by
  intro n
  induction n with
  | zero => simp [sampleResume]
  | succ n ih =>
    intro c hc
    simp only [sampleResume, List.mem_cons] at hc
    rcases hc with rfl | rfl | rfl | rfl | rfl | hc
    · exact Or.inl rfl
    · exact Or.inr rfl
    · exact Or.inr rfl
    · exact Or.inr rfl
    · exact Or.inr rfl
    · exact ih c hc

lemma jsToLower_sampleResume (n : Nat) :
    jsToLower (sampleResume n) = sampleResume n := by
  induction n with
  | zero => rfl
  | succ n ih =>
    unfold jsToLower at ih ⊢
    simp only [sampleResume, List.map_cons, ih]
    rw [show (' ').toLower = ' ' by decide, show ('z').toLower = 'z' by decide]

lemma countRuns_sample : ∀ (n : Nat) (b : Bool),
    countRunsAux isWordChar b (sampleResume n) = n := by
  intro n
  induction n with
  | zero => intro b; rfl
  | succ n ih =>
    intro b
    have h1 : isWordChar ' ' = false := by decide
    have h2 : isWordChar 'z' = true := by decide
    simp [sampleResume, countRunsAux, h1, h2, ih]
    omega

lemma wordCount_sample (n : Nat) : wordCount (sampleResume n) = n :=
  countRuns_sample n false

/-- The resume contains none of the recognised section names and none of
the vocabulary verbs as substrings of its lower-cased text. -/
def noRecognizedContent (r : List Char) : Prop :=
  includes (jsToLower r) ("experience".data) = false ∧
  includes (jsToLower r) ("education".data) = false ∧
  includes (jsToLower r) ("skill".data) = false ∧
  ∀ v ∈ actionVerbs, includes (jsToLower r) v = false

lemma sample_noRecognized (n : Nat) : noRecognizedContent (sampleResume n) := by
  have hchars := sampleResume_chars n
  have key : ∀ (needle : List Char) (a : Char), a ∈ needle → a ≠ ' ' → a ≠ 'z' →
      includes (sampleResume n) needle = false := by
    intro needle a ha h1 h2
    apply includes_eq_false ha
    intro hmem
    rcases hchars a hmem with rfl | rfl
    · exact h1 rfl
    · exact h2 rfl
  unfold noRecognizedContent
  rw [jsToLower_sampleResume]
  refine ⟨key _ 'x' (by decide) (by decide) (by decide),
    key _ 'u' (by decide) (by decide) (by decide),
    key _ 'k' (by decide) (by decide) (by decide), ?_⟩
  intro v hv
  fin_cases hv
  · exact key _ 'm' (by decide) (by decide) (by decide)
  · exact key _ 'l' (by decide) (by decide) (by decide)
  · exact key _ 'd' (by decide) (by decide) (by decide)
  · exact key _ 'c' (by decide) (by decide) (by decide)
  · exact key _ 'i' (by decide) (by decide) (by decide)
  · exact key _ 'a' (by decide) (by decide) (by decide)
  · exact key _ 'i' (by decide) (by decide) (by decide)
  · exact key _ 'r' (by decide) (by decide) (by decide)
  · exact key _ 'n' (by decide) (by decide) (by decide)
  · exact key _ 'u' (by decide) (by decide) (by decide)

lemma sectionTerm_zero {rl : List Char}
    (h1 : includes rl ("experience".data) = false)
    (h2 : includes rl ("education".data) = false)
    (h3 : includes rl ("skill".data) = false) : sectionTerm rl = 0 := by
  simp [sectionTerm, h1, h2, h3]

lemma actionVerbTerm_zero {rl : List Char}
    (h : ∀ v ∈ actionVerbs, includes rl v = false) : actionVerbTerm rl = 0 := by
  unfold actionVerbTerm
  rw [List.filter_eq_nil_iff.mpr (fun v hv => by simp [h v hv])]
  norm_num

/-- With no recognised content and no job description, the score is
determined by the length band alone. -/
lemma score_plain {r : List Char} (h : noRecognizedContent r) :
    calculateATSMatchScore r []
      = min 100 (jsRound ((30 : ℚ) + lengthBandTerm (wordCount r))) := by
  obtain ⟨h1, h2, h3, h4⟩ := h
  apply score_eval r [] (lengthBandTerm (wordCount r)) 0 0 10
  · rfl
  · exact sectionTerm_zero h1 h2 h3
  · exact actionVerbTerm_zero h4
  · exact jdKeywordTerm_no_jd _
  · rw [show (20 + lengthBandTerm (wordCount r) + 0 + 0 + ((10 : ℤ) : ℚ))
        = (30 : ℚ) + lengthBandTerm (wordCount r) by push_cast; ring]

/-- C2 (amended): with no recognised sections, no action verbs and no job
description, a resume of exactly 249 word tokens scores exactly 15 points
lower than one of exactly 250 tokens, and one of exactly 701 tokens scores
exactly 10 points lower than one of exactly 700 tokens. -/
theorem c2_band_boundaries :
    (∀ r1 r2 : List Char, wordCount r1 = 249 → wordCount r2 = 250 →
        noRecognizedContent r1 → noRecognizedContent r2 →
        calculateATSMatchScore r2 [] - calculateATSMatchScore r1 [] = 15) ∧
    (∀ r1 r2 : List Char, wordCount r1 = 701 → wordCount r2 = 700 →
        noRecognizedContent r1 → noRecognizedContent r2 →
        calculateATSMatchScore r2 [] - calculateATSMatchScore r1 [] = 10) := by
  have hv : ∀ (r : List Char) (w : Nat), wordCount r = w → noRecognizedContent r →
      calculateATSMatchScore r [] = min 100 (jsRound ((30 : ℚ) + lengthBandTerm w)) := by
    intro r w hw h
    rw [← hw]
    exact score_plain h
  have e249 : lengthBandTerm 249 = 5 := by norm_num [lengthBandTerm]
  have e250 : lengthBandTerm 250 = 20 := by norm_num [lengthBandTerm]
  have e700 : lengthBandTerm 700 = 20 := by norm_num [lengthBandTerm]
  have e701 : lengthBandTerm 701 = 10 := by norm_num [lengthBandTerm]
  constructor
  · intro r1 r2 h1 h2 hn1 hn2
    rw [hv r1 249 h1 hn1, hv r2 250 h2 hn2, e249, e250,
      show ((30 : ℚ) + 20) = ((50 : ℤ) : ℚ) by norm_num,
      show ((30 : ℚ) + 5) = ((35 : ℤ) : ℚ) by norm_num,
      jsRound_intCast, jsRound_intCast]
    norm_num [min_def]
  · intro r1 r2 h1 h2 hn1 hn2
    rw [hv r1 701 h1 hn1, hv r2 700 h2 hn2, e700, e701,
      show ((30 : ℚ) + 20) = ((50 : ℤ) : ℚ) by norm_num,
      show ((30 : ℚ) + 10) = ((40 : ℤ) : ℚ) by norm_num,
      jsRound_intCast, jsRound_intCast]
    norm_num [min_def]

theorem c2_witness :
    calculateATSMatchScore (sampleResume 250) []
        - calculateATSMatchScore (sampleResume 249) [] = 15 ∧
    calculateATSMatchScore (sampleResume 700) []
        - calculateATSMatchScore (sampleResume 701) [] = 10 :=
  ⟨c2_band_boundaries.1 _ _ (wordCount_sample 249) (wordCount_sample 250)
      (sample_noRecognized 249) (sample_noRecognized 250),
   c2_band_boundaries.2 _ _ (wordCount_sample 701) (wordCount_sample 700)
      (sample_noRecognized 701) (sample_noRecognized 700)⟩

/-- C2 counterexample: two resumes identical except for token count, with
no recognised sections, verbs or job description — 249 tokens score 35 and
250 tokens score 50, a difference of 15, not the claimed 5. -/
theorem c2_counterexample :
    calculateATSMatchScore (sampleResume 249) [] = 35 ∧
    calculateATSMatchScore (sampleResume 250) [] = 50 ∧
    calculateATSMatchScore (sampleResume 250) []
        - calculateATSMatchScore (sampleResume 249) [] ≠ 5 := by
  have h249 : calculateATSMatchScore (sampleResume 249) [] = 35 := by
    rw [score_plain (sample_noRecognized 249), wordCount_sample,
      show lengthBandTerm 249 = 5 by norm_num [lengthBandTerm],
      show ((30 : ℚ) + 5) = ((35 : ℤ) : ℚ) by norm_num, jsRound_intCast]
    norm_num [min_def]
  have h250 : calculateATSMatchScore (sampleResume 250) [] = 50 := by
    rw [score_plain (sample_noRecognized 250), wordCount_sample,
      show lengthBandTerm 250 = 20 by norm_num [lengthBandTerm],
      show ((30 : ℚ) + 20) = ((50 : ℤ) : ℚ) by norm_num, jsRound_intCast]
    norm_num [min_def]
  refine ⟨h249, h250, ?_⟩
  rw [h249, h250]
  decide

/-! Lemmas about `removeSeps` and `jsTrim` (C5, C7). -/

lemma removeSeps_cons (c : Char) (t : List Char)
    (h : ∀ u, c :: t ≠ '-' :: '-' :: '-' :: u) :
    removeSeps (c :: t) = c :: removeSeps t := by
  rw [removeSeps.eq_def]
  split
  · rename_i heq
    exact absurd heq (h _)
  · rename_i heq
    injection heq with h1 h2
    rw [h1, h2]
  · rename_i heq
    exact absurd heq (by simp)

lemma removeSeps_three (t : List Char) :
    removeSeps ('-' :: '-' :: '-' :: t) = removeSeps t := rfl

lemma substringOf_length_le {n s : List Char} (h : SubstringOf n s) :
    n.length ≤ s.length := by
  obtain ⟨p, q, rfl⟩ := h
  simp only [List.length_append]
  omega

lemma removeSeps_sublist_aux :
    ∀ (n : Nat) (s : List Char), s.length ≤ n → (removeSeps s).Sublist s := by
  intro n
  induction n with
  | zero =>
    intro s hs
    have : s = [] := List.eq_nil_of_length_eq_zero (by omega)
    subst this
    exact List.Sublist.refl _
  | succ n ih =>
    intro s hs
    rcases s with _ | ⟨a, t⟩
    · exact List.Sublist.refl _
    · by_cases hsep : ∃ u, a :: t = '-' :: '-' :: '-' :: u
      · obtain ⟨u, hu⟩ := hsep
        have hlen : u.length ≤ n := by
          have := congrArg List.length hu
          simp only [List.length_cons] at this hs
          omega
        rw [hu, removeSeps_three]
        exact (((ih u hlen).cons _).cons _).cons _
      · push_neg at hsep
        rw [removeSeps_cons a t hsep]
        have hlen : t.length ≤ n := by
          simp only [List.length_cons] at hs
          omega
        exact (ih t hlen).cons₂ a

lemma removeSeps_sublist (s : List Char) : (removeSeps s).Sublist s :=
  removeSeps_sublist_aux s.length s le_rfl

lemma removeSeps_filter_aux :
    ∀ (n : Nat) (s : List Char), s.length ≤ n →
      (removeSeps s).filter (fun c => decide (c ≠ '-'))
        = s.filter (fun c => decide (c ≠ '-')) := by
  intro n
  induction n with
  | zero =>
    intro s hs
    have : s = [] := List.eq_nil_of_length_eq_zero (by omega)
    subst this
    rfl
  | succ n ih =>
    intro s hs
    rcases s with _ | ⟨a, t⟩
    · rfl
    · by_cases hsep : ∃ u, a :: t = '-' :: '-' :: '-' :: u
      · obtain ⟨u, hu⟩ := hsep
        have hlen : u.length ≤ n := by
          have := congrArg List.length hu
          simp only [List.length_cons] at this hs
          omega
        rw [hu, removeSeps_three, ih u hlen]
        simp [List.filter_cons]
      · push_neg at hsep
        rw [removeSeps_cons a t hsep]
        have hlen : t.length ≤ n := by
          simp only [List.length_cons] at hs
          omega
        rw [List.filter_cons, List.filter_cons, ih t hlen]

lemma mem_removeSeps_aux :
    ∀ (n : Nat) (s : List Char), s.length ≤ n →
      ∀ c ∈ s, c ≠ '-' → c ∈ removeSeps s := by
  intro n
  induction n with
  | zero =>
    intro s hs
    have : s = [] := List.eq_nil_of_length_eq_zero (by omega)
    subst this
    simp
  | succ n ih =>
    intro s hs c hc hne
    rcases s with _ | ⟨a, t⟩
    · simp at hc
    · by_cases hsep : ∃ u, a :: t = '-' :: '-' :: '-' :: u
      · obtain ⟨u, hu⟩ := hsep
        have hlen : u.length ≤ n := by
          have := congrArg List.length hu
          simp only [List.length_cons] at this hs
          omega
        rw [hu, removeSeps_three]
        rw [hu] at hc
        rcases List.mem_cons.mp hc with rfl | hc
        · exact absurd rfl hne
        rcases List.mem_cons.mp hc with rfl | hc
        · exact absurd rfl hne
        rcases List.mem_cons.mp hc with rfl | hc
        · exact absurd rfl hne
        · exact ih u hlen c hc hne
      · push_neg at hsep
        rw [removeSeps_cons a t hsep]
        have hlen : t.length ≤ n := by
          simp only [List.length_cons] at hs
          omega
        rcases List.mem_cons.mp hc with rfl | hc
        · exact List.mem_cons_self _ _
        · exact List.mem_cons_of_mem _ (ih t hlen c hc hne)

lemma removeSeps_noSep_aux :
    ∀ (n : Nat) (s : List Char), s.length ≤ n →
      ¬ SubstringOf sepMarker (removeSeps s) := by
  intro n
  induction n with
  | zero =>
    intro s hs hsub
    have : s = [] := List.eq_nil_of_length_eq_zero (by omega)
    subst this
    have := substringOf_length_le hsub
    simp [sepMarker, removeSeps] at this
  | succ n ih =>
    intro s hs hsub
    rcases s with _ | ⟨a, t⟩
    · have := substringOf_length_le hsub
      simp [sepMarker, removeSeps] at this
    · by_cases hsep : ∃ u, a :: t = '-' :: '-' :: '-' :: u
      · obtain ⟨u, hu⟩ := hsep
        have hlen : u.length ≤ n := by
          have := congrArg List.length hu
          simp only [List.length_cons] at this hs
          omega
        rw [hu, removeSeps_three] at hsub
        exact ih u hlen hsub
      · push_neg at hsep
        have hlen : t.length ≤ n := by
          simp only [List.length_cons] at hs
          omega
        rw [removeSeps_cons a t hsep] at hsub
        rcases (substringOf_cons_iff _ _ _).mp hsub with ⟨rest, hpre⟩ | hsub'
        · -- the separator would have to be an initial segment:
          -- a = '-' and removeSeps t starts with two further hyphens,
          -- impossible since a :: t does not start with the separator.
          rw [show sepMarker ++ rest = '-' :: '-' :: '-' :: rest from rfl] at hpre
          injection hpre with h1 h2
          subst h1
          rcases t with _ | ⟨b, t'⟩
          · simp [removeSeps] at h2
          · by_cases hb : b = '-'
            · subst hb
              have hthead : ∀ w, t' ≠ '-' :: w := by
                intro w hw
                exact hsep w (by rw [hw])
              have hsep' : ∀ u, ('-' : Char) :: t' ≠ '-' :: '-' :: '-' :: u := by
                intro u hu'
                injection hu' with _ h3
                exact hthead ('-' :: u) h3
              rw [removeSeps_cons '-' t' hsep'] at h2
              injection h2 with _ h3
              rcases t' with _ | ⟨d, t''⟩
              · simp [removeSeps] at h3
              · have hd : d ≠ '-' := by
                  intro hd'
                  exact hthead t'' (by rw [hd'])
                rw [removeSeps_cons d t''
                  (by intro u hu'; injection hu' with h4 _; exact hd h4)] at h3
                injection h3 with h4 _
                exact hd h4
            · rw [removeSeps_cons b t'
                (by intro u hu'; injection hu' with h4 _; exact hb h4)] at h2
              injection h2 with h4 _
              exact hb h4
        · exact ih t hlen hsub'

lemma removeSeps_noSep (s : List Char) :
    ¬ SubstringOf sepMarker (removeSeps s) :=
  removeSeps_noSep_aux s.length s le_rfl

lemma jsTrim_decomp (y : List Char) :
    ∃ pre post, (∀ c ∈ pre, isJsWhitespace c = true) ∧
      (∀ c ∈ post, isJsWhitespace c = true) ∧ y = pre ++ jsTrim y ++ post := by
  refine ⟨y.takeWhile isJsWhitespace,
    (((y.dropWhile isJsWhitespace).reverse).takeWhile isJsWhitespace).reverse,
    ?_, ?_, ?_⟩
  · intro c hc
    exact List.mem_takeWhile_imp hc
  · intro c hc
    rw [List.mem_reverse] at hc
    exact List.mem_takeWhile_imp hc
  · unfold jsTrim
    conv_lhs => rw [← List.takeWhile_append_dropWhile (p := isJsWhitespace) (l := y)]
    rw [List.append_assoc]
    congr 1
    rw [← List.reverse_append, List.takeWhile_append_dropWhile,
      List.reverse_reverse]

lemma jsTrim_ne_nil {x : List Char} {c : Char} (hc : c ∈ x)
    (hw : isJsWhitespace c = false) : jsTrim x ≠ [] := by
  intro hnil
  obtain ⟨pre, post, hp, hq, hx⟩ := jsTrim_decomp x
  rw [hnil, List.append_nil] at hx
  rw [hx] at hc
  rcases List.mem_append.mp hc with hc | hc
  · rw [hp c hc] at hw
    exact Bool.true_eq_false.mp hw
  · rw [hq c hc] at hw
    exact Bool.true_eq_false.mp hw

lemma substringOf_jsTrim {n y : List Char} (h : SubstringOf n (jsTrim y)) :
    SubstringOf n y := by
  obtain ⟨pre, post, _, _, hy⟩ := jsTrim_decomp y
  obtain ⟨p, q, hj⟩ := h
  exact ⟨pre ++ p, q ++ post, by rw [hy, hj]; simp⟩

lemma sepSplit_three (t : List Char) :
    sepSplit ('-' :: '-' :: '-' :: t) = [] :: sepSplit t := rfl

lemma sepSplit_ne_nil (s : List Char) : sepSplit s ≠ [] := by
  rw [sepSplit.eq_def]
  split
  · simp
  · split <;> simp
  · simp

lemma sepSplit_cons (c : Char) (t seg : List Char) (segs : List (List Char))
    (h : ∀ u, c :: t ≠ '-' :: '-' :: '-' :: u)
    (hs : sepSplit t = seg :: segs) :
    sepSplit (c :: t) = (c :: seg) :: segs := by
  rw [sepSplit.eq_def]
  split
  · rename_i heq
    exact absurd heq (h _)
  · rename_i heq
    injection heq with h1 h2
    rw [← h1, ← h2, hs]
  · rename_i heq
    exact absurd heq (by simp)

lemma joinSeps_single (seg : List Char) : joinSeps [seg] = seg := rfl

lemma joinSeps_cons₂ (seg s2 : List Char) (segs : List (List Char)) :
    joinSeps (seg :: s2 :: segs) = seg ++ sepMarker ++ joinSeps (s2 :: segs) :=
  rfl

lemma joinSeps_cons_head (c : Char) (seg : List Char)
    (segs : List (List Char)) :
    joinSeps ((c :: seg) :: segs) = c :: joinSeps (seg :: segs) := by
  cases segs with
  | nil => rfl
  | cons s2 segs => rfl

/-- `removeSeps` deletes exactly the scanned `---` matches: the input is
the `sepSplit` segments joined by `---`, and the output is their plain
concatenation. -/
lemma sepSplit_spec_aux :
    ∀ (n : Nat) (s : List Char), s.length ≤ n →
      joinSeps (sepSplit s) = s ∧ (sepSplit s).join = removeSeps s := by
  intro n
  induction n with
  | zero =>
    intro s hs
    have : s = [] := List.eq_nil_of_length_eq_zero (by omega)
    subst this
    exact ⟨rfl, rfl⟩
  | succ n ih =>
    intro s hs
    rcases s with _ | ⟨a, t⟩
    · exact ⟨rfl, rfl⟩
    · by_cases hsep : ∃ u, a :: t = '-' :: '-' :: '-' :: u
      · obtain ⟨u, hu⟩ := hsep
        have hlen : u.length ≤ n := by
          have := congrArg List.length hu
          simp only [List.length_cons] at this hs
          omega
        obtain ⟨ihj, ihr⟩ := ih u hlen
        rw [hu, sepSplit_three, removeSeps_three]
        rcases hsplit : sepSplit u with _ | ⟨seg, segs⟩
        · exact absurd hsplit (sepSplit_ne_nil u)
        · rw [hsplit] at ihj ihr
          constructor
          · rw [joinSeps_cons₂, ihj]
            rfl
          · rw [show (([] : List Char) :: seg :: segs).join
                = (seg :: segs).join from rfl, ihr]
      · push_neg at hsep
        have hlen : t.length ≤ n := by
          simp only [List.length_cons] at hs
          omega
        obtain ⟨ihj, ihr⟩ := ih t hlen
        rcases hsplit : sepSplit t with _ | ⟨seg, segs⟩
        · exact absurd hsplit (sepSplit_ne_nil t)
        · rw [sepSplit_cons a t seg segs hsep hsplit, removeSeps_cons a t hsep]
          rw [hsplit] at ihj ihr
          constructor
          · rw [joinSeps_cons_head, ihj]
          · rw [show ((a :: seg) :: segs).join
                = a :: (seg :: segs).join from rfl, ihr]

/-- C7: `cleanAIResponse` removes exactly the scanned literal `---`
occurrences and trims edge whitespace, preserving every other character —
including lone hyphens, bold markers and list markers — unchanged and in
order: the input is the `sepSplit` segments joined by `---`, the
de-separated text is precisely those segments concatenated (hence a
sublist of the input agreeing with it on all non-hyphen characters), the
result contains no `---` substring, and the final answer is the
de-separated text minus an all-whitespace prefix and suffix. -/
theorem c7_clean_preserves (s : List Char) :
    ¬ SubstringOf sepMarker (cleanAIResponse s) ∧
    joinSeps (sepSplit s) = s ∧
    removeSeps s = (sepSplit s).join ∧
    (removeSeps s).Sublist s ∧
    (removeSeps s).filter (fun c => decide (c ≠ '-'))
        = s.filter (fun c => decide (c ≠ '-')) ∧
    ∃ pre post, (∀ c ∈ pre, isJsWhitespace c = true) ∧
      (∀ c ∈ post, isJsWhitespace c = true) ∧
      removeSeps s = pre ++ cleanAIResponse s ++ post := by
  obtain ⟨hj, hr⟩ := sepSplit_spec_aux s.length s le_rfl
  refine ⟨?_, hj, hr.symm, removeSeps_sublist s,
    removeSeps_filter_aux s.length s le_rfl, jsTrim_decomp (removeSeps s)⟩
  intro hsub
  exact removeSeps_noSep s (substringOf_jsTrim hsub)

theorem c7_witness :
    ¬ SubstringOf sepMarker (cleanAIResponse ("* a-b --- c--d".data)) ∧
    joinSeps (sepSplit ("* a-b --- c--d".data)) = ("* a-b --- c--d".data) ∧
    removeSeps ("* a-b --- c--d".data)
      = (sepSplit ("* a-b --- c--d".data)).join :=
  ⟨(c7_clean_preserves ("* a-b --- c--d".data)).1,
   (c7_clean_preserves ("* a-b --- c--d".data)).2.1,
   (c7_clean_preserves ("* a-b --- c--d".data)).2.2.1⟩

/-- C5 (amended): the fallback apology always cleans to itself, hence a
non-empty `aiReview`, and any accepted completion containing at least one
character that is neither a hyphen nor whitespace cleans to a non-empty
string — but an accepted completion may consist only of separators, in
which case `aiReview` is empty (see the counterexample). -/
theorem c5_aiReview_nonempty_amended :
    cleanAIResponse fallbackMessage = fallbackMessage ∧
    fallbackMessage ≠ [] ∧
    (∀ t c, c ∈ t → c ≠ '-' → isJsWhitespace c = false →
      cleanAIResponse t ≠ []) := by
  refine ⟨by decide, by decide, ?_⟩
  intro t c hc hhy hws
  unfold cleanAIResponse
  exact jsTrim_ne_nil (mem_removeSeps_aux t.length t le_rfl c hc hhy) hws

theorem c5_witness : cleanAIResponse ['a'] ≠ [] :=
  c5_aiReview_nonempty_amended.2.2 ['a'] 'a' (by decide) (by decide) (by decide)

/-- C5 counterexample: fifty-one hyphens form an upstream completion that
the client accepts (already trimmed, length 51 ≥ 50), yet
`cleanAIResponse` maps it to the empty string, so the `aiReview` field of
the success response is empty. -/
theorem c5_counterexample :
    jsTrim (List.replicate 51 '-') = List.replicate 51 '-' ∧
    (List.replicate 51 '-').length = 51 ∧
    callAI (.success (some (List.replicate 51 '-'))) = List.replicate 51 '-' ∧
    cleanAIResponse (List.replicate 51 '-') = [] := by
  refine ⟨by decide, by decide, by decide, by decide⟩

/-! Review pipeline theorems (C6, C8). -/

lemma cleanAIResponse_fallback :
    cleanAIResponse fallbackMessage = fallbackMessage := by decide

lemma jsTrim_nil : jsTrim [] = [] := rfl

/-- C6: whenever the upstream LLM call fails in any of the absorbed ways,
a well-formed request (trimmed resume length ≥ 50) still receives a
success response whose `aiReview` is the fixed fallback apology and whose
`atsScore` is computed normally; `callAI` itself always returns a string,
never an exception. -/
theorem c6_upstream_failure_absorbed (resume : List Char)
    (jd? : Option (List Char)) (u : UpstreamOutcome)
    (h50 : 50 ≤ (jsTrim resume).length) (hfail : upstreamFails u) :
    callAI u = fallbackMessage ∧
    reviewHandler (some resume) jd? u =
      { status := 200, ok := true,
        atsScore := some (calculateATSMatchScore resume (jd?.getD [])),
        aiReview := some fallbackMessage, error := none } := by
  have hcall : callAI u = fallbackMessage := by
    cases u with
    | missingKey => rfl
    | transportError => rfl
    | badStatus st => rfl
    | success content? =>
      cases content? with
      | none => rfl
      | some content =>
        unfold upstreamFails at hfail
        show (if jsTrim content = [] ∨ (jsTrim content).length < 50
          then fallbackMessage else jsTrim content) = fallbackMessage
        rw [if_pos hfail]
  refine ⟨hcall, ?_⟩
  show (if resume = [] ∨ (jsTrim resume).length < 50 then badRequestResponse
    else ({ status := 200, ok := true,
            atsScore := some (calculateATSMatchScore resume (jd?.getD [])),
            aiReview := some (cleanAIResponse (callAI u)),
            error := none } : ReviewResponse)) =
    ({ status := 200, ok := true,
       atsScore := some (calculateATSMatchScore resume (jd?.getD [])),
       aiReview := some fallbackMessage, error := none } : ReviewResponse)
  rw [if_neg]
  · rw [hcall, cleanAIResponse_fallback]
  · push_neg
    constructor
    · intro hres
      rw [hres, jsTrim_nil] at h50
      simp at h50
    · omega

/-- A 68-character resume used to witness C6. -/
def resumeSixty : List Char :=
  ("Experienced software developer skilled in building reliable systems".data)

theorem c6_witness :
    reviewHandler (some resumeSixty) none UpstreamOutcome.missingKey =
      { status := 200, ok := true,
        atsScore := some (calculateATSMatchScore resumeSixty []),
        aiReview := some fallbackMessage, error := none } :=
  (c6_upstream_failure_absorbed resumeSixty none UpstreamOutcome.missingKey
    (by decide) trivial).2

/-- C8: a request with a missing resume, or one whose trimmed resume is
shorter than 50 characters, is rejected with the fixed 400 response for
every possible upstream outcome — the response carries no score and no
review, so neither the scoring function nor the prompt builder nor the LLM
call contributes to it. -/
theorem c8_validation_rejects :
    (∀ (jd? : Option (List Char)) (u : UpstreamOutcome),
        reviewHandler none jd? u = badRequestResponse) ∧
    (∀ (resume : List Char) (jd? : Option (List Char)) (u : UpstreamOutcome),
        (jsTrim resume).length < 50 →
        reviewHandler (some resume) jd? u = badRequestResponse) ∧
    badRequestResponse.status = 400 ∧ badRequestResponse.ok = false ∧
    badRequestResponse.atsScore = none ∧ badRequestResponse.aiReview = none ∧
    badRequestResponse.error = some ("Resume is missing or too short.".data) := by
  refine ⟨fun _ _ => rfl, ?_, rfl, rfl, rfl, rfl, rfl⟩
  intro resume jd? u h
  show (if resume = [] ∨ (jsTrim resume).length < 50 then badRequestResponse
    else ({ status := 200, ok := true,
            atsScore := some (calculateATSMatchScore resume (jd?.getD [])),
            aiReview := some (cleanAIResponse (callAI u)),
            error := none } : ReviewResponse)) = badRequestResponse
  rw [if_pos (Or.inr h)]

theorem c8_witness :
    reviewHandler (some ("Short resume under forty characters now.".data))
        none UpstreamOutcome.transportError = badRequestResponse :=
  c8_validation_rejects.2.1 _ none _ (by decide)

/-! Payment initiator theorems (C9). -/

lemma hexChar_mem (n : Nat) : hexChar n ∈ ("0123456789abcdef".data) := by
  unfold hexChar
  rcases Nat.lt_or_ge n 16 with h | h
  · interval_cases n <;> decide
  · rw [List.getD_eq_default]
    · decide
    · simpa [show ("0123456789abcdef".data).length = 16 from rfl] using h

lemma wordToHex_mem (w : Nat) (c : Char) (hc : c ∈ wordToHex w) :
    c ∈ ("0123456789abcdef".data) := by
  unfold wordToHex at hc
  simp only [List.mem_cons, List.not_mem_nil, or_false] at hc
  rcases hc with rfl | rfl | rfl | rfl | rfl | rfl | rfl | rfl
  all_goals exact hexChar_mem _

lemma wordToHex_length (w : Nat) : (wordToHex w).length = 8 := rfl

lemma sha256hex_length (msg : List Nat) : (sha256hex msg).length = 64 := by
  unfold sha256hex
  simp [List.length_append, wordToHex_length]

lemma sha256hex_lowercase (msg : List Nat) :
    ∀ c ∈ sha256hex msg, c ∈ ("0123456789abcdef".data) := by
  intro c hc
  unfold sha256hex at hc
  simp only [List.mem_append, or_assoc] at hc
  rcases hc with h | h | h | h | h | h | h | h
  all_goals exact wordToHex_mem _ _ h

lemma substringOf_amount (p : PhonePePayload) :
    SubstringOf (("\"amount\":".data) ++ intToChars p.amount)
      (stringifyPayload p) := by
  unfold stringifyPayload
  refine ⟨("\x7b\"merchantId\":".data) ++ jsonString p.merchantId ++
      (",\"merchantTransactionId\":".data) ++ jsonString p.merchantTransactionId
      ++ [','],
    (",\"redirectUrl\":\"https://resumeguru.onrender.com/payment-status\",\"redirectMode\":\"POST\",\"callbackUrl\":\"https://resumeguru.onrender.com/webhook/phonepe\",\"paymentInstrument\":\x7b\"type\":\"PAY_PAGE\"\x7d\x7d".data),
    ?_⟩
  rw [show (",\"amount\":".data) = ',' :: ("\"amount\":".data) from rfl]
  simp [List.append_assoc]

/-- C9: the signed order payload carries `amount * 100` (so `amount = 100`
yields 10000 in the serialised JSON, whose text contains the literal
`"amount":10000` field), the request body is the base64 encoding of the
UTF-8 bytes of that JSON, and the `X-VERIFY` header is the lowercase
64-hex-digit SHA-256 digest of `base64Payload + "/pg/v1/pay" + saltKey`
followed by the fixed suffix `###1`. -/
theorem c9_order_signing (mid salt : List Char) (amount : ℤ)
    (orderId : List Char) :
    (payloadOf mid amount orderId).amount = amount * 100 ∧
    (createOrderRequest mid salt amount orderId).request
      = base64Encode (utf8Encode (stringifyPayload (payloadOf mid amount orderId))) ∧
    (createOrderRequest mid salt amount orderId).xVerify
      = sha256hex (utf8Encode ((createOrderRequest mid salt amount orderId).request
          ++ ("/pg/v1/pay".data) ++ salt)) ++ ("###1".data) ∧
    SubstringOf (("\"amount\":".data) ++ intToChars (amount * 100))
      (stringifyPayload (payloadOf mid amount orderId)) ∧
    (sha256hex (utf8Encode ((createOrderRequest mid salt amount orderId).request
        ++ ("/pg/v1/pay".data) ++ salt))).length = 64 ∧
    (∀ c ∈ sha256hex (utf8Encode ((createOrderRequest mid salt amount orderId).request
        ++ ("/pg/v1/pay".data) ++ salt)), c ∈ ("0123456789abcdef".data)) ∧
    (amount = 100 → (payloadOf mid amount orderId).amount = 10000) := by
  refine ⟨rfl, rfl, rfl, substringOf_amount _, sha256hex_length _,
    sha256hex_lowercase _, ?_⟩
  rintro rfl
  norm_num [payloadOf]

theorem c9_witness :
    (payloadOf ("MID".data) 100 ("ORDER1".data)).amount = 10000 :=
  (c9_order_signing ("MID".data) ("SALT".data) 100 ("ORDER1".data)).2.2.2.2.2.2
    rfl
